import Mathlib

/-!
# Verification of the celery-batches buffering/flush scheduler

Shallow embedding of `celery_batches/__init__.py`:

* `consume_queue` — the drain-until-Empty iterator over the FIFO buffer;
* `SimpleRequest` / `SimpleRequest.from_request` — the serializable snapshot
  of a worker request (the Batch Adapter);
* `Batches.task_message_handler` — the ingress hook produced by `Strategy`
  (push into buffer, lazily arm the repeating timer, count-based flush);
* `Batches.do_flush` — the shared attempt-flush for the count and time
  triggers;
* `Batches.flush` — the dispatcher: partition by `acks_late`, assert
  non-emptiness, snapshot every request, submit to the pool with an
  accept callback and a completion callback;
* `Batches.apply` — the eager single-item execution path.

Python's dynamically typed attribute values are modelled by the inductive
type `PyVal`; an attribute that may be absent on a request object (so that
reading it raises `AttributeError`) is an `Option` field.  Exceptions
escaping a function are modelled with `Except`/`Option` results.  The
scheduler's mutable state (`_buffer`, `_count`, `_tref`) is threaded
explicitly through a step function, and reachability is a fold of steps
over a list of events (ingress calls and timer fires).
-/

namespace CeleryBatches

/-- A dynamically typed Python value: `None`, booleans, integers, strings,
tuples, string-keyed dicts, and otherwise-opaque objects identified by a tag. -/
inductive PyVal where
  | none : PyVal
  | bool : Bool → PyVal
  | int : Int → PyVal
  | str : String → PyVal
  | tup : List PyVal → PyVal
  | dict : List (String × PyVal) → PyVal
  | obj : Nat → PyVal
deriving Repr

/-- Python truthiness of a list (`if requests:` on a Python list). -/
def listTruthy : List α → Bool
  | [] => false
  | _ :: _ => true

/-- Python truthiness of a `PyVal` (`args or ()`-style tests). -/
def PyVal.truthy : PyVal → Bool
  | .none => false
  | .bool b => b
  | .int n => n != 0
  | .str s => s != ""
  | .tup l => listTruthy l
  | .dict l => listTruthy l
  | .obj _ => true

/-- The task object a buffered request is bound to; the dispatcher reads the
acknowledgment policy from `r.task.acks_late`. -/
structure Task where
  acks_late : Bool
deriving Repr

/-- A live worker request (`celery.worker.request.Request`) as seen by the
scheduler.  Each attribute that `SimpleRequest.from_request` reads without a
default is an `Option PyVal`: `Option.none` models the attribute being absent,
so that reading it raises `AttributeError`.  `payload` models `_payload`, the
`(args, kwargs, embed)` triple.  `ignore_result` is read with
`getattr(request, "ignore_result", False)`, so absence does not raise. -/
structure Request where
  id : Option PyVal
  name : Option PyVal
  payload : Option (PyVal × PyVal × PyVal)
  delivery_info : Option PyVal
  hostname : Option PyVal
  ignore_result : Option PyVal
  reply_to : Option PyVal
  correlation_id : Option PyVal
  task : Task
deriving Repr

/-- `SimpleRequest`: the self-contained, serializable snapshot handed to the
executor pool. -/
structure SimpleRequest where
  id : PyVal
  name : PyVal
  args : PyVal
  kwargs : PyVal
  delivery_info : PyVal
  hostname : PyVal
  ignore_result : PyVal
  reply_to : PyVal
  correlation_id : PyVal
deriving Repr

/-- `SimpleRequest.from_request`: unpack `request._payload` into
`(args, kwargs, embed)`, read `ignore_result` with a `False` default, and copy
`id`, `name`, `delivery_info`, `hostname`, `reply_to`, `correlation_id`
verbatim.  Returns `Option.none` when a required attribute is absent
(the `AttributeError` aborting the snapshot). -/
def SimpleRequest.from_request (request : Request) : Option SimpleRequest := do
  let (args, kwargs, _embed) ← request.payload
  let ignore_result := request.ignore_result.getD (PyVal.bool false)
  let id ← request.id
  let name ← request.name
  let delivery_info ← request.delivery_info
  let hostname ← request.hostname
  let reply_to ← request.reply_to
  let correlation_id ← request.correlation_id
  pure ⟨id, name, args, kwargs, delivery_info, hostname, ignore_result,
    reply_to, correlation_id⟩

/-- `Queue.put`: append at the tail of the FIFO buffer. -/
def queuePut (q : List α) (x : α) : List α := q ++ [x]

/-- `Queue.get_nowait`: pop the head, or fail (`Empty`) on an empty queue. -/
def getNowait : List α → Option (α × List α)
  | [] => Option.none
  | x :: rest => Option.some (x, rest)

/-- `consume_queue`: repeatedly `get_nowait` until `Empty`, yielding the
items in order.  Returns the yielded items together with the queue left
behind.  On `x :: rest`, `get_nowait` yields `x` and the iteration continues
on `rest`; on `[]` it raises `Empty` and the iteration stops. -/
def consume_queue : List α → List α × List α
  | [] => ([], [])
  | x :: rest =>
    let r := consume_queue rest
    (x :: r.1, r.2)

/-- The mutable scheduler state of one `Batches` task instance:
`_buffer` (FIFO queue), the number of `next(self._count)` calls made so far
(`count(1)` yields `counter + 1` on the next call), `_tref` (whether the
repeating timer handle is non-`None`), and the `flush_every` setting. -/
structure BatchesState where
  buffer : List Request
  counter : Nat
  tref : Bool
  flush_every : Nat
deriving Repr

/-- Observable output of one scheduler step: whether `_do_flush` ran during
the step, and the request list passed to `flush` if it was called. -/
structure StepOut where
  flushAttempted : Bool
  dispatched : Option (List Request)
deriving Repr

/-- `Batches._do_flush`: if `self._buffer.qsize()` is non-zero, drain with
`list(consume_queue(self._buffer))` and call `self.flush(requests)` when the
drain is non-empty; if no requests were obtained, cancel the timer handle
(when armed) and clear it to `None`. -/
def Batches.do_flush (s : BatchesState) : BatchesState × StepOut :=
  if s.buffer.length ≠ 0 then
    let drained := consume_queue s.buffer
    let requests := drained.1
    if listTruthy requests then
      ({ s with buffer := drained.2 }, ⟨true, Option.some requests⟩)
    else
      ({ s with buffer := drained.2, tref := false }, ⟨true, Option.none⟩)
  else
    ({ s with tref := false }, ⟨true, Option.none⟩)

/-- The `task_message_handler` closure returned by `Batches.Strategy`:
build the request, `put_buffer(request)`, arm the repeating timer if
`self._tref is None`, then `if not next(self._count) % self.flush_every:
flush_buffer()`.  (`count(1)` makes the n-th handler call see the value n;
Python's `not` on an integer is true exactly on zero.) -/
def task_message_handler (s : BatchesState) (r : Request) :
    BatchesState × StepOut :=
  let s1 : BatchesState := { s with buffer := queuePut s.buffer r }
  let s2 : BatchesState := if s1.tref then s1 else { s1 with tref := true }
  let n := s2.counter + 1
  let s3 : BatchesState := { s2 with counter := n }
  if n % s3.flush_every = 0 then
    Batches.do_flush s3
  else
    (s3, ⟨false, Option.none⟩)

/-- An externally triggered scheduler event: an ingress call delivering one
decoded message, or a fire of the repeating timer (which invokes
`_do_flush` and only happens while the timer is armed). -/
inductive Event where
  | ingress (r : Request)
  | timerFire
deriving Repr

/-- One scheduler step. -/
def stepEv (s : BatchesState) : Event → BatchesState × StepOut
  | .ingress r => task_message_handler s r
  | .timerFire => if s.tref then Batches.do_flush s else (s, ⟨false, Option.none⟩)

/-- `Batches.__init__`: empty buffer, `count(1)` not yet advanced, no timer. -/
def initState (flush_every : Nat) : BatchesState :=
  { buffer := [], counter := 0, tref := false, flush_every := flush_every }

/-- Run a sequence of events from a state. -/
def runEvents (s : BatchesState) (es : List Event) : BatchesState :=
  es.foldl (fun s e => (stepEv s e).1) s

/-- Number of ingress events in a trace. -/
def numIngress : List Event → Nat
  | [] => 0
  | Event.ingress _ :: rest => numIngress rest + 1
  | Event.timerFire :: rest => numIngress rest

/-- `acks_late = [], []; [acks_late[r.task.acks_late].append(r) for r in
requests]`: the first component is `acks_late[False]` (index 0), the second
`acks_late[True]` (index 1). -/
def partitionAcksLate (requests : List Request) : List Request × List Request :=
  requests.foldl
    (fun acc r =>
      if r.task.acks_late then (acc.1, queuePut acc.2 r)
      else (queuePut acc.1 r, acc.2))
    ([], [])

/-- `[SimpleRequest.from_request(r) for r in requests]`: left-to-right, the
first `AttributeError` aborts the whole comprehension. -/
def snapshotAll : List Request → Option (List SimpleRequest)
  | [] => Option.some []
  | r :: rest =>
    match SimpleRequest.from_request r, snapshotAll rest with
    | Option.some s, Option.some ss => Option.some (s :: ss)
    | _, _ => Option.none

/-- An exception escaping `Batches.flush`. -/
inductive FlushError where
  | assertionError
  | attributeError
deriving Repr, DecidableEq

/-- Which completion callback is registered with the pool:
`acks_late[True] and on_return or noop`. -/
inductive CompletionCallback where
  | onReturn
  | noop
deriving Repr, DecidableEq

/-- The `self._pool.apply_async(...)` submission made by `flush`:
the serialized snapshots, what the `on_accepted` accept callback
acknowledges (`acks_late[False]`), what the `on_return` handler would
acknowledge (`acks_late[True]`), and which completion callback was
registered. -/
structure PoolCall where
  snapshots : List SimpleRequest
  acceptAcks : List Request
  returnHandlerAcks : List Request
  callback : CompletionCallback
deriving Repr

/-- `Batches.flush`: partition by `r.task.acks_late`, run
`assert requests and (acks_late[True] or acks_late[False])`, snapshot every
request, then submit to the pool with `accept_callback=on_accepted` and
`callback=acks_late[True] and on_return or noop`.  An `Except.error` models
an exception raised before `apply_async` is reached: the pool is never
called and nothing is acknowledged. -/
def Batches.flush (requests : List Request) : Except FlushError PoolCall :=
  let acks_late := partitionAcksLate requests
  if listTruthy requests && (listTruthy acks_late.2 || listTruthy acks_late.1) then
    match snapshotAll requests with
    | Option.none => Except.error FlushError.attributeError
    | Option.some snaps =>
      Except.ok
        { snapshots := snaps
          acceptAcks := acks_late.1
          returnHandlerAcks := acks_late.2
          callback :=
            if listTruthy acks_late.2 then CompletionCallback.onReturn
            else CompletionCallback.noop }
  else
    Except.error FlushError.assertionError

/-- What the registered completion callback acknowledges when it fires:
`on_return` acknowledges `acks_late[True]`, `noop` acknowledges nothing. -/
def completionAcks (c : PoolCall) : List Request :=
  match c.callback with
  | CompletionCallback.onReturn => c.returnHandlerAcks
  | CompletionCallback.noop => []

/-- The keyword options consulted by `Batches.apply` via `options.get`. -/
structure ApplyOptions where
  task_id : Option PyVal
  exchange : Option PyVal
  routing_key : Option PyVal
  priority : Option PyVal
  ignore_result : Option PyVal
deriving Repr

/-- `options.get(key)` with no default: `None` when absent. -/
def pyGet (o : Option PyVal) : PyVal := o.getD PyVal.none

/-- `Batches.apply`: build one `SimpleRequest` (id from `task_id` or a fresh
uuid, name `"batch request"`, `args or ()`, `kwargs or {}`, eager delivery
info assembled from the options, the local hostname, `ignore_result` option
defaulting to `False`, `reply_to=None`, `correlation_id=None`) and execute
the task inline on the one-element batch `[request]` via `super().apply`,
bypassing the buffer and the pool.  The returned list is that batch. -/
def Batches.apply (args kwargs : PyVal) (options : ApplyOptions)
    (fresh_uuid hostname : PyVal) : List SimpleRequest :=
  let request : SimpleRequest :=
    { id := options.task_id.getD fresh_uuid
      name := PyVal.str "batch request"
      args := if args.truthy then args else PyVal.tup []
      kwargs := if kwargs.truthy then kwargs else PyVal.dict []
      delivery_info := PyVal.dict
        [("is_eager", PyVal.bool true),
         ("exchange", pyGet options.exchange),
         ("routing_key", pyGet options.routing_key),
         ("priority", pyGet options.priority)]
      hostname := hostname
      ignore_result := options.ignore_result.getD (PyVal.bool false)
      reply_to := PyVal.none
      correlation_id := PyVal.none }
  [request]

/-- A well-formed sample request bound to an `acks_late = False` task. -/
def sampleEarly : Request :=
  { id := Option.some (PyVal.str "id-0")
    name := Option.some (PyVal.str "tasks.add")
    payload := Option.some (PyVal.tup [PyVal.int 1], PyVal.dict [], PyVal.none)
    delivery_info := Option.some (PyVal.dict [])
    hostname := Option.some (PyVal.str "worker-1")
    ignore_result := Option.some (PyVal.bool false)
    reply_to := Option.some PyVal.none
    correlation_id := Option.some PyVal.none
    task := ⟨false⟩ }

/-- A well-formed sample request bound to an `acks_late = True` task. -/
def sampleLate : Request :=
  { sampleEarly with id := Option.some (PyVal.str "id-1"), task := ⟨true⟩ }

/-- A malformed sample request: `_payload` is absent. -/
def sampleMalformed : Request :=
  { sampleEarly with id := Option.some (PyVal.str "id-2"), payload := Option.none }

/-! ## Basic lemmas about the buffer and the partition -/

theorem consume_queue_eq (q : List α) : consume_queue q = (q, []) := by
  induction q with
  | nil => rfl
  | cons x rest ih => simp [consume_queue, ih]

theorem foldl_queuePut (items : List α) (q : List α) :
    items.foldl queuePut q = q ++ items := by
  induction items generalizing q with
  | nil => simp
  | cons x xs ih => simp [List.foldl_cons, queuePut, ih]

theorem listTruthy_iff (l : List α) : listTruthy l = true ↔ l ≠ [] := by
  cases l <;> simp [listTruthy]

theorem listTruthy_false_iff (l : List α) : listTruthy l = false ↔ l = [] := by
  cases l <;> simp [listTruthy]

theorem partitionAcksLate_go (requests : List Request) (a b : List Request) :
    requests.foldl
      (fun acc r =>
        if r.task.acks_late then (acc.1, queuePut acc.2 r)
        else (queuePut acc.1 r, acc.2))
      (a, b)
    = (a ++ requests.filter (fun r => !r.task.acks_late),
       b ++ requests.filter (fun r => r.task.acks_late)) := by
  induction requests generalizing a b with
  | nil => simp
  | cons r rs ih =>
    cases h : r.task.acks_late
    · simp only [List.foldl_cons]
      rw [if_neg (by simp [h]), ih]
      simp [queuePut, List.filter_cons, h]
    · simp only [List.foldl_cons]
      rw [if_pos (by simp [h]), ih]
      simp [queuePut, List.filter_cons, h]

theorem partitionAcksLate_eq (requests : List Request) :
    partitionAcksLate requests
    = (requests.filter (fun r => !r.task.acks_late),
       requests.filter (fun r => r.task.acks_late)) := by
  simpa [partitionAcksLate] using partitionAcksLate_go requests [] []

theorem snapshotAll_eq_none_of_mem (requests : List Request) (r : Request)
    (hmem : r ∈ requests)
    (hbad : SimpleRequest.from_request r = Option.none) :
    snapshotAll requests = Option.none := by
  induction requests with
  | nil => cases hmem
  | cons x rest ih =>
    rcases List.mem_cons.mp hmem with h | h
    · subst h
      simp [snapshotAll, hbad]
    · simp [snapshotAll, ih h]

/-! ## Characterization of attempt-flush and the ingress handler -/

theorem do_flush_of_empty (s : BatchesState) (h : s.buffer = []) :
    Batches.do_flush s = ({ s with tref := false }, ⟨true, Option.none⟩) := by
  simp [Batches.do_flush, h]

theorem do_flush_of_nonempty (s : BatchesState) (h : s.buffer ≠ []) :
    Batches.do_flush s
    = ({ s with buffer := [] }, ⟨true, Option.some s.buffer⟩) := by
  have hl : s.buffer.length ≠ 0 := by simpa using h
  have ht : listTruthy s.buffer = true := (listTruthy_iff s.buffer).mpr h
  simp [Batches.do_flush, consume_queue_eq, hl, ht]

theorem do_flush_buffer (s : BatchesState) :
    (Batches.do_flush s).1.buffer = [] := by
  by_cases h : s.buffer = []
  · rw [do_flush_of_empty s h]; exact h
  · rw [do_flush_of_nonempty s h]

theorem do_flush_keeps_counter (s : BatchesState) :
    (Batches.do_flush s).1.counter = s.counter
    ∧ (Batches.do_flush s).1.flush_every = s.flush_every := by
  by_cases h : s.buffer = []
  · rw [do_flush_of_empty s h]; exact ⟨rfl, rfl⟩
  · rw [do_flush_of_nonempty s h]; exact ⟨rfl, rfl⟩

theorem tmh_eq (s : BatchesState) (r : Request) :
    task_message_handler s r =
      (if (s.counter + 1) % s.flush_every = 0 then
        Batches.do_flush
          { buffer := s.buffer ++ [r], counter := s.counter + 1, tref := true,
            flush_every := s.flush_every }
      else
        ({ buffer := s.buffer ++ [r], counter := s.counter + 1, tref := true,
           flush_every := s.flush_every }, ⟨false, Option.none⟩)) := by
  obtain ⟨buf, cnt, tr, fe⟩ := s
  cases tr <;> rfl

theorem tmh_of_trigger (s : BatchesState) (r : Request)
    (h : (s.counter + 1) % s.flush_every = 0) :
    task_message_handler s r =
      ({ buffer := [], counter := s.counter + 1, tref := true,
         flush_every := s.flush_every },
       ⟨true, Option.some (s.buffer ++ [r])⟩) := by
  rw [tmh_eq, if_pos h, do_flush_of_nonempty _ (by simp)]

theorem tmh_of_no_trigger (s : BatchesState) (r : Request)
    (h : (s.counter + 1) % s.flush_every ≠ 0) :
    task_message_handler s r =
      ({ buffer := s.buffer ++ [r], counter := s.counter + 1, tref := true,
         flush_every := s.flush_every },
       ⟨false, Option.none⟩) := by
  rw [tmh_eq, if_neg h]

/-! ## Characterization of the dispatcher -/

theorem flush_ok_parts (requests : List Request) (c : PoolCall)
    (h : Batches.flush requests = Except.ok c) :
    c.acceptAcks = requests.filter (fun r => !r.task.acks_late)
    ∧ c.returnHandlerAcks = requests.filter (fun r => r.task.acks_late)
    ∧ c.callback =
        (if listTruthy (requests.filter (fun r => r.task.acks_late)) then
          CompletionCallback.onReturn
         else CompletionCallback.noop)
    ∧ snapshotAll requests = Option.some c.snapshots
    ∧ requests ≠ [] := by
  simp only [Batches.flush, partitionAcksLate_eq] at h
  split at h
  · rename_i hcond
    split at h
    · exact absurd h (by simp)
    · rename_i snaps hsnap
      have hc := (Except.ok.injEq _ _ ).mp h
      subst hc
      refine ⟨rfl, rfl, rfl, hsnap, ?_⟩
      have : listTruthy requests = true := by
        cases hb : listTruthy requests <;> simp [hb] at hcond ⊢
      exact (listTruthy_iff requests).mp this
  · exact absurd h (by simp)

theorem flush_completionAcks (requests : List Request) (c : PoolCall)
    (h : Batches.flush requests = Except.ok c) :
    completionAcks c = requests.filter (fun r => r.task.acks_late) := by
  obtain ⟨-, h2, h3, -, -⟩ := flush_ok_parts requests c h
  by_cases ht : listTruthy (requests.filter (fun r => r.task.acks_late)) = true
  · rw [if_pos ht] at h3
    simp [completionAcks, h3, h2]
  · have hnil : requests.filter (fun r => r.task.acks_late) = [] := by
      have hf : listTruthy (requests.filter (fun r => r.task.acks_late)) = false := by
        cases hb : listTruthy (requests.filter (fun r => r.task.acks_late))
        · rfl
        · exact absurd hb ht
      exact (listTruthy_false_iff _).mp hf
    rw [if_neg ht] at h3
    simp [completionAcks, h3, hnil]

theorem partition_covers (requests : List Request) (h : requests ≠ []) :
    (listTruthy (partitionAcksLate requests).2
      || listTruthy (partitionAcksLate requests).1) = true := by
  rw [partitionAcksLate_eq]
  obtain ⟨r, rs, rfl⟩ : ∃ r rs, requests = r :: rs := by
    cases requests with
    | nil => exact absurd rfl h
    | cons r rs => exact ⟨r, rs, rfl⟩
  cases hl : r.task.acks_late <;>
    simp [List.filter_cons, hl, listTruthy]

theorem flush_not_assertion_of_nonempty (requests : List Request)
    (h : requests ≠ []) :
    Batches.flush requests ≠ Except.error FlushError.assertionError := by
  simp only [Batches.flush]
  rw [if_pos]
  · split <;> simp
  · simp [(listTruthy_iff requests).mpr h, partition_covers requests h]

/-! ## Trace invariants -/

theorem stepEv_flush_every (s : BatchesState) (e : Event) :
    ((stepEv s e).1).flush_every = s.flush_every := by
  cases e with
  | ingress r =>
    show ((task_message_handler s r).1).flush_every = s.flush_every
    by_cases h : (s.counter + 1) % s.flush_every = 0
    · rw [tmh_of_trigger s r h]
    · rw [tmh_of_no_trigger s r h]
  | timerFire =>
    show ((if s.tref = true then Batches.do_flush s
           else (s, ⟨false, Option.none⟩)).1).flush_every = s.flush_every
    by_cases h : s.tref = true
    · rw [if_pos h]; exact (do_flush_keeps_counter s).2
    · rw [if_neg h]

theorem stepEv_counter_ingress (s : BatchesState) (r : Request) :
    ((stepEv s (Event.ingress r)).1).counter = s.counter + 1 := by
  show ((task_message_handler s r).1).counter = s.counter + 1
  by_cases h : (s.counter + 1) % s.flush_every = 0
  · rw [tmh_of_trigger s r h]
  · rw [tmh_of_no_trigger s r h]

theorem stepEv_counter_timer (s : BatchesState) :
    ((stepEv s Event.timerFire).1).counter = s.counter := by
  show ((if s.tref = true then Batches.do_flush s
         else (s, ⟨false, Option.none⟩)).1).counter = s.counter
  by_cases h : s.tref = true
  · rw [if_pos h]; exact (do_flush_keeps_counter s).1
  · rw [if_neg h]

theorem runEvents_cons (s : BatchesState) (e : Event) (rest : List Event) :
    runEvents s (e :: rest) = runEvents (stepEv s e).1 rest := by
  simp [runEvents, List.foldl_cons]

theorem runEvents_counter (es : List Event) (s : BatchesState) :
    (runEvents s es).counter = s.counter + numIngress es := by
  induction es generalizing s with
  | nil => simp [runEvents, numIngress]
  | cons e rest ih =>
    rw [runEvents_cons, ih]
    cases e with
    | ingress r => rw [stepEv_counter_ingress]; simp [numIngress]; omega
    | timerFire => rw [stepEv_counter_timer]; simp [numIngress]

theorem runEvents_flush_every (es : List Event) (s : BatchesState) :
    (runEvents s es).flush_every = s.flush_every := by
  induction es generalizing s with
  | nil => rfl
  | cons e rest ih => rw [runEvents_cons, ih, stepEv_flush_every]

theorem stepEv_armed (s : BatchesState) (e : Event)
    (h : s.buffer ≠ [] → s.tref = true) :
    (stepEv s e).1.buffer ≠ [] → (stepEv s e).1.tref = true := by
  cases e with
  | ingress r =>
    show (task_message_handler s r).1.buffer ≠ []
      → (task_message_handler s r).1.tref = true
    by_cases hm : (s.counter + 1) % s.flush_every = 0
    · rw [tmh_of_trigger s r hm]; intro; rfl
    · rw [tmh_of_no_trigger s r hm]; intro; rfl
  | timerFire =>
    show ((if s.tref = true then Batches.do_flush s
           else (s, ⟨false, Option.none⟩)).1).buffer ≠ []
      → ((if s.tref = true then Batches.do_flush s
          else (s, ⟨false, Option.none⟩)).1).tref = true
    by_cases ht : s.tref = true
    · rw [if_pos ht]
      intro hb
      exact absurd (do_flush_buffer s) hb
    · rw [if_neg ht]; exact h

theorem runEvents_armed (es : List Event) (s : BatchesState)
    (h : s.buffer ≠ [] → s.tref = true) :
    (runEvents s es).buffer ≠ [] → (runEvents s es).tref = true := by
  induction es generalizing s with
  | nil => exact h
  | cons e rest ih => rw [runEvents_cons]; exact ih _ (stepEv_armed s e h)

/-- The pool call produced by flushing the mixed batch
`[sampleEarly, sampleLate]` (computed from `Batches.flush`). -/
def samplePoolCall : PoolCall :=
  ((Batches.flush [sampleEarly, sampleLate]).toOption).getD ⟨[], [], [], CompletionCallback.noop⟩

/-- The pool call produced by flushing the all-early batch `[sampleEarly]`. -/
def samplePoolCallEarly : PoolCall :=
  ((Batches.flush [sampleEarly]).toOption).getD ⟨[], [], [], CompletionCallback.noop⟩

/-! ## Claims -/

/-- C1: for every non-empty batch accepted by `Batches.flush`, the
`on_accepted` callback acknowledges exactly the requests whose task has
`acks_late = False` in their original relative order, the registered
completion callback acknowledges exactly those with `acks_late = True` in
order, and together (each callback firing once) every request of the batch
is acknowledged exactly once. -/
theorem flush_ack_exactness (requests : List Request) (c : PoolCall)
    (_hne : requests ≠ [])
    (h : Batches.flush requests = Except.ok c) :
    c.acceptAcks = requests.filter (fun r => !r.task.acks_late)
    ∧ completionAcks c = requests.filter (fun r => r.task.acks_late)
    ∧ List.Perm (c.acceptAcks ++ completionAcks c) requests := by
  obtain ⟨h1, -, -, -, -⟩ := flush_ok_parts requests c h
  have h2 := flush_completionAcks requests c h
  refine ⟨h1, h2, ?_⟩
  rw [h1, h2]
  have hp := List.filter_append_perm (fun r => !r.task.acks_late) requests
  simpa using hp

/-- Witness for C1 on the concrete mixed batch `[sampleEarly, sampleLate]`. -/
theorem flush_ack_exactness_witness :
    samplePoolCall.acceptAcks = [sampleEarly]
    ∧ completionAcks samplePoolCall = [sampleLate]
    ∧ List.Perm (samplePoolCall.acceptAcks ++ completionAcks samplePoolCall)
        [sampleEarly, sampleLate] := by
  have h := flush_ack_exactness [sampleEarly, sampleLate] samplePoolCall
    (by simp) rfl
  exact ⟨h.1, h.2.1, h.2.2⟩

/-- C2: with `flush_every = K > 0`, the ingress call whose ordinal is a
multiple of K triggers an attempt-flush synchronously within that call
(after pushing the item, so the dispatched batch ends with it), and no
other ingress call triggers a count-based flush. -/
theorem count_trigger_exactness (K : Nat) (_hK : 0 < K) (es : List Event)
    (r : Request) :
    ((stepEv (runEvents (initState K) es) (Event.ingress r)).2.flushAttempted
        = true
      ↔ (numIngress es + 1) % K = 0)
    ∧ ((stepEv (runEvents (initState K) es) (Event.ingress r)).2.flushAttempted
        = true
      → (stepEv (runEvents (initState K) es) (Event.ingress r)).2.dispatched
          = Option.some ((runEvents (initState K) es).buffer ++ [r])) := by
  have hcnt : (runEvents (initState K) es).counter = numIngress es := by
    rw [runEvents_counter]; simp [initState]
  have hfe : (runEvents (initState K) es).flush_every = K := by
    rw [runEvents_flush_every]; rfl
  have hstep : stepEv (runEvents (initState K) es) (Event.ingress r)
      = task_message_handler (runEvents (initState K) es) r := rfl
  by_cases hm : (numIngress es + 1) % K = 0
  · have hm2 : ((runEvents (initState K) es).counter + 1)
        % (runEvents (initState K) es).flush_every = 0 := by
      rw [hcnt, hfe]; exact hm
    rw [hstep, tmh_of_trigger _ r hm2]
    exact ⟨by simp [hm], fun _ => rfl⟩
  · have hm2 : ((runEvents (initState K) es).counter + 1)
        % (runEvents (initState K) es).flush_every ≠ 0 := by
      rw [hcnt, hfe]; exact hm
    rw [hstep, tmh_of_no_trigger _ r hm2]
    constructor
    · simp [hm]
    · intro hc; exact absurd hc (by simp)

/-- Witness for C2: with `flush_every = 2`, the second ingress call flushes. -/
theorem count_trigger_exactness_witness :
    (stepEv (runEvents (initState 2) [Event.ingress sampleEarly])
      (Event.ingress sampleLate)).2.flushAttempted = true :=
  (count_trigger_exactness 2 (by decide) [Event.ingress sampleEarly]
    sampleLate).1.mpr (by decide)

/-- C3 counterexample: the claimed "armed iff non-empty" invariant fails.
With `flush_every = 1`, after a single ingress call the buffer has just been
flushed (it is empty) but the repeating timer is still armed: the code only
disarms when a flush attempt finds nothing to drain. -/
theorem timer_iff_nonempty_cex :
    ¬ (∀ (K : Nat) (es : List Event), 0 < K →
        (((runEvents (initState K) es).tref = true)
          ↔ (runEvents (initState K) es).buffer ≠ [])) := by
  intro h
  exact (h 1 [Event.ingress sampleEarly] Nat.one_pos).mp rfl rfl

/-- C3 (amended): in every reachable state, if the Pending Buffer is
non-empty then the repeating-timer handle is armed; the converse direction
of the claimed iff does not hold (the timer can stay armed with an empty
buffer right after a flush dispatched the drained items). -/
theorem timer_armed_of_buffer_nonempty (K : Nat) (es : List Event)
    (h : (runEvents (initState K) es).buffer ≠ []) :
    (runEvents (initState K) es).tref = true :=
  runEvents_armed es (initState K) (fun hb => absurd rfl hb) h

/-- Witness for the amended C3: one buffered item with `flush_every = 10`
leaves a non-empty buffer, and the timer is indeed armed. -/
theorem timer_armed_of_buffer_nonempty_witness :
    (runEvents (initState 10) [Event.ingress sampleEarly]).tref = true :=
  timer_armed_of_buffer_nonempty 10 [Event.ingress sampleEarly]
    (by intro hb; exact List.noConfusion hb)

/-- C4: pushing N items into the FIFO buffer and draining with
`list(consume_queue(buffer))` yields exactly the pushed sequence in order;
draining an empty buffer yields the empty sequence, and a second drain
right after a drain yields the empty sequence. -/
theorem consume_queue_fifo (items : List Request) :
    (consume_queue (items.foldl queuePut ([] : List Request))).1 = items
    ∧ (consume_queue ([] : List Request)).1 = []
    ∧ (consume_queue
        ((consume_queue (items.foldl queuePut ([] : List Request))).2)).1
      = [] := by
  rw [foldl_queuePut, List.nil_append, consume_queue_eq]
  exact ⟨rfl, rfl, rfl⟩

/-- C5: when `_do_flush` finds the buffer empty it dispatches nothing,
cancels the armed timer and clears the handle; when the drain is non-empty
it calls `flush` with exactly the drained items and leaves the timer handle
untouched; and a fire of a disarmed timer is a no-op, so the timer cannot
fire again until an arrival re-arms it. -/
theorem do_flush_trigger_semantics (s : BatchesState) :
    (s.buffer = [] →
      (Batches.do_flush s).2.dispatched = Option.none
      ∧ (Batches.do_flush s).1.tref = false)
    ∧ (s.buffer ≠ [] →
      (Batches.do_flush s).2.dispatched = Option.some s.buffer
      ∧ (Batches.do_flush s).1.tref = s.tref)
    ∧ (s.tref = false → stepEv s Event.timerFire = (s, ⟨false, Option.none⟩)) := by
  refine ⟨?_, ?_, ?_⟩
  · intro h; rw [do_flush_of_empty s h]; exact ⟨rfl, rfl⟩
  · intro h; rw [do_flush_of_nonempty s h]; exact ⟨rfl, rfl⟩
  · intro h; simp [stepEv, h]

/-- Witness for C5 at concrete states: an empty-buffer flush attempt clears
the timer, and a non-empty one dispatches the buffered item. -/
theorem do_flush_trigger_semantics_witness :
    (Batches.do_flush ⟨[], 0, true, 10⟩).1.tref = false
    ∧ (Batches.do_flush ⟨[sampleEarly], 0, true, 10⟩).2.dispatched
        = Option.some [sampleEarly] :=
  ⟨((do_flush_trigger_semantics ⟨[], 0, true, 10⟩).1 rfl).2,
   ((do_flush_trigger_semantics ⟨[sampleEarly], 0, true, 10⟩).2.1
      (by simp)).1⟩

/-- C6: for a request carrying every field read by the snapshot,
`SimpleRequest.from_request` copies `id`, `name`, `args`, `kwargs` (from the
payload), `delivery_info`, `hostname`, `ignore_result`, `reply_to` and
`correlation_id` verbatim; no default value replaces a present field. -/
theorem from_request_fidelity (r : Request)
    (idv namev dv hv rv cv a k e ir : PyVal)
    (h1 : r.id = Option.some idv) (h2 : r.name = Option.some namev)
    (h3 : r.payload = Option.some (a, k, e))
    (h4 : r.delivery_info = Option.some dv) (h5 : r.hostname = Option.some hv)
    (h6 : r.ignore_result = Option.some ir) (h7 : r.reply_to = Option.some rv)
    (h8 : r.correlation_id = Option.some cv) :
    SimpleRequest.from_request r
      = Option.some ⟨idv, namev, a, k, dv, hv, ir, rv, cv⟩ := by
  simp [SimpleRequest.from_request, h1, h2, h3, h4, h5, h6, h7, h8]

/-- Witness for C6 on the concrete request `sampleEarly`. -/
theorem from_request_fidelity_witness :
    SimpleRequest.from_request sampleEarly
      = Option.some
          ⟨PyVal.str "id-0", PyVal.str "tasks.add", PyVal.tup [PyVal.int 1],
           PyVal.dict [], PyVal.dict [], PyVal.str "worker-1",
           PyVal.bool false, PyVal.none, PyVal.none⟩ :=
  from_request_fidelity sampleEarly _ _ _ _ _ _ _ _ _ _
    rfl rfl rfl rfl rfl rfl rfl rfl

/-- C7: if any request of the batch fails to snapshot (a required attribute
is absent), `Batches.flush` raises before `apply_async`: the result is the
propagated error, no pool submission is produced and no request is
acknowledged. -/
theorem flush_aborts_on_malformed (requests : List Request) (r : Request)
    (hmem : r ∈ requests)
    (hbad : SimpleRequest.from_request r = Option.none) :
    Batches.flush requests = Except.error FlushError.attributeError := by
  have hne : requests ≠ [] := by
    intro h
    subst h
    cases hmem
  simp only [Batches.flush]
  rw [if_pos]
  · rw [snapshotAll_eq_none_of_mem requests r hmem hbad]
  · simp [(listTruthy_iff requests).mpr hne, partition_covers requests hne]

/-- Witness for C7: a malformed request sitting second in a batch of two
aborts the whole flush. -/
theorem flush_aborts_on_malformed_witness :
    Batches.flush [sampleEarly, sampleMalformed]
      = Except.error FlushError.attributeError :=
  flush_aborts_on_malformed [sampleEarly, sampleMalformed] sampleMalformed
    (by simp) rfl

/-- C8: the completion callback registered with the pool is the no-op when
no request of the batch has `acks_late = True`, and the deferred
acknowledgment handler `on_return` when at least one does. -/
theorem flush_callback_choice (requests : List Request) (c : PoolCall)
    (h : Batches.flush requests = Except.ok c) :
    ((∀ r ∈ requests, r.task.acks_late = false)
      → c.callback = CompletionCallback.noop)
    ∧ ((∃ r ∈ requests, r.task.acks_late = true)
      → c.callback = CompletionCallback.onReturn) := by
  obtain ⟨-, -, h3, -, -⟩ := flush_ok_parts requests c h
  constructor
  · intro hall
    have hnil : requests.filter (fun r => r.task.acks_late) = [] := by
      rw [List.filter_eq_nil_iff]
      intro a ha
      simp [hall a ha]
    rw [h3, hnil]
    rfl
  · rintro ⟨r, hr, hlate⟩
    have ht : listTruthy (requests.filter (fun r => r.task.acks_late)) = true := by
      rw [listTruthy_iff]
      intro hnil
      have hm : r ∈ requests.filter (fun r => r.task.acks_late) :=
        List.mem_filter.mpr ⟨hr, by simp [hlate]⟩
      rw [hnil] at hm
      cases hm
    rw [h3, if_pos ht]

/-- Witness for C8: the all-early batch `[sampleEarly]` registers the no-op
completion callback. -/
theorem flush_callback_choice_witness :
    samplePoolCallEarly.callback = CompletionCallback.noop :=
  (flush_callback_choice [sampleEarly] samplePoolCallEarly rfl).1
    (by intro r hr; rw [List.mem_singleton.mp hr]; rfl)

/-- C9: `Batches.apply` builds exactly one `SimpleRequest` — args (or an
empty tuple when `None`), kwargs (or an empty dict when `None`), the
supplied `task_id` or the fresh uuid, eager delivery info, and `None` reply
and correlation fields — and executes the task inline on that one-element
batch; and every internal flush (`_do_flush`) calls `flush` only with a
non-empty list, so the non-empty-batch assertion at the head of `flush`
never fails on that path. -/
theorem apply_eager_and_internal_flush_safety :
    (∀ (args kwargs : PyVal) (options : ApplyOptions)
        (fresh_uuid hostname : PyVal),
      (args = PyVal.none ∨ ∃ l, args = PyVal.tup l) →
      (kwargs = PyVal.none ∨ ∃ l, kwargs = PyVal.dict l) →
      ∃ req : SimpleRequest,
        Batches.apply args kwargs options fresh_uuid hostname = [req]
        ∧ (args = PyVal.none → req.args = PyVal.tup [])
        ∧ (args ≠ PyVal.none → req.args = args)
        ∧ (kwargs = PyVal.none → req.kwargs = PyVal.dict [])
        ∧ (kwargs ≠ PyVal.none → req.kwargs = kwargs)
        ∧ req.id = options.task_id.getD fresh_uuid
        ∧ req.name = PyVal.str "batch request"
        ∧ req.delivery_info = PyVal.dict
            [("is_eager", PyVal.bool true),
             ("exchange", pyGet options.exchange),
             ("routing_key", pyGet options.routing_key),
             ("priority", pyGet options.priority)]
        ∧ req.hostname = hostname
        ∧ req.ignore_result = options.ignore_result.getD (PyVal.bool false)
        ∧ req.reply_to = PyVal.none
        ∧ req.correlation_id = PyVal.none)
    ∧ (∀ (s : BatchesState) (l : List Request),
        (Batches.do_flush s).2.dispatched = Option.some l →
        l ≠ [] ∧ Batches.flush l ≠ Except.error FlushError.assertionError) := by
  constructor
  · intro args kwargs options fresh_uuid hostname hargs hkw
    refine ⟨_, rfl, ?_, ?_, ?_, ?_, rfl, rfl, rfl, rfl, rfl, rfl, rfl⟩
    · intro h; subst h; rfl
    · intro hne
      rcases hargs with h | ⟨l, h⟩
      · exact absurd h hne
      · subst h
        cases l
        · rfl
        · rfl
    · intro h; subst h; rfl
    · intro hne
      rcases hkw with h | ⟨l, h⟩
      · exact absurd h hne
      · subst h
        cases l
        · rfl
        · rfl
  · intro s l hd
    have hl : l = s.buffer ∧ s.buffer ≠ [] := by
      by_cases h : s.buffer = []
      · rw [do_flush_of_empty s h] at hd
        simp at hd
      · rw [do_flush_of_nonempty s h] at hd
        exact ⟨((Option.some.injEq _ _).mp hd).symm, h⟩
    rw [hl.1]
    exact ⟨hl.2, flush_not_assertion_of_nonempty s.buffer hl.2⟩

/-- Witness for C9: the eager path on `args = kwargs = None` yields a batch
of length one, and a concrete internal flush never hits the assertion. -/
theorem apply_eager_and_internal_flush_safety_witness :
    (Batches.apply PyVal.none PyVal.none
      ⟨Option.none, Option.none, Option.none, Option.none, Option.none⟩
      (PyVal.str "uuid-0") (PyVal.str "worker-1")).length = 1
    ∧ Batches.flush [sampleEarly] ≠ Except.error FlushError.assertionError := by
  constructor
  · obtain ⟨req, heq, -⟩ := apply_eager_and_internal_flush_safety.1
      PyVal.none PyVal.none
      ⟨Option.none, Option.none, Option.none, Option.none, Option.none⟩
      (PyVal.str "uuid-0") (PyVal.str "worker-1") (Or.inl rfl) (Or.inl rfl)
    rw [heq]
    rfl
  · exact (apply_eager_and_internal_flush_safety.2
      ⟨[sampleEarly], 0, true, 10⟩ [sampleEarly] rfl).2

/-- C10: the dispatcher reads the acknowledgment policy from `r.task`, so a
batch whose requests all share one task object lands entirely in one
partition: either `on_accepted` acknowledges every request and the
completion callback acknowledges nothing, or the other way around. -/
theorem flush_uniform_task_single_partition (requests : List Request)
    (t : Task) (c : PoolCall)
    (hall : ∀ r ∈ requests, r.task = t)
    (h : Batches.flush requests = Except.ok c) :
    (c.acceptAcks = requests ∧ completionAcks c = [])
    ∨ (completionAcks c = requests ∧ c.acceptAcks = []) := by
  obtain ⟨h1, -, -, -, -⟩ := flush_ok_parts requests c h
  have h2 := flush_completionAcks requests c h
  cases hl : t.acks_late
  · left
    constructor
    · rw [h1, List.filter_eq_self]
      intro a ha
      simp [hall a ha, hl]
    · rw [h2, List.filter_eq_nil_iff]
      intro a ha
      simp [hall a ha, hl]
  · right
    constructor
    · rw [h2, List.filter_eq_self]
      intro a ha
      simp [hall a ha, hl]
    · rw [h1, List.filter_eq_nil_iff]
      intro a ha
      simp [hall a ha, hl]

/-- Witness for C10: the uniform early-ack batch `[sampleEarly]` is
acknowledged entirely by one callback. -/
theorem flush_uniform_task_single_partition_witness :
    (samplePoolCallEarly.acceptAcks = [sampleEarly]
      ∧ completionAcks samplePoolCallEarly = [])
    ∨ (completionAcks samplePoolCallEarly = [sampleEarly]
      ∧ samplePoolCallEarly.acceptAcks = []) :=
  flush_uniform_task_single_partition [sampleEarly] ⟨false⟩ samplePoolCallEarly
    (by intro r hr; rw [List.mem_singleton.mp hr]; rfl) rfl

end CeleryBatches
